import Mathlib

set_option autoImplicit false

/-!
Verification of the kreuzberg FFI boundary infrastructure: the error
classification enumeration, the message classifier, the thread-local error
context, the string intern table, the result pool and the plugin registries.
The Rust implementation behind the C surface is not part of this tree (only
its C tests and callers are), so each subsystem is modelled from the design
specification; the C test suites pin the concrete constants (code numbering,
machine names, descriptions).
-/

namespace Kreuzberg

/-! Error classification codes (spec section 4.1 / 7, `kreuzberg_error_code_*`). -/

/-- Modelled from the spec: the closed error taxonomy is a densely packed
enumeration 0..N-1 with a queryable count N = 8, in the order
validation, parsing, ocr, missing_dependency, io, plugin,
unsupported_format, internal (pinned by tests/c/test_error.c). -/
def error_code_count : Nat := 8

/-- Classification code for validation failures. -/
def validationCode : Nat := 0

/-- Classification code for parsing failures. -/
def parsingCode : Nat := 1

/-- Classification code for OCR failures. -/
def ocrCode : Nat := 2

/-- Classification code for missing-dependency failures. -/
def missingDependencyCode : Nat := 3

/-- Classification code for input/output failures. -/
def ioCode : Nat := 4

/-- Classification code for plugin failures. -/
def pluginCode : Nat := 5

/-- Classification code for unsupported-format failures. -/
def unsupportedFormatCode : Nat := 6

/-- Classification code for internal failures. -/
def internalCode : Nat := 7

/-- Modelled from the spec: name lookup for a classification code; an
out-of-range code yields the sentinel "unknown" rather than failing. -/
def error_code_name : Nat → String
  | 0 => "validation"
  | 1 => "parsing"
  | 2 => "ocr"
  | 3 => "missing_dependency"
  | 4 => "io"
  | 5 => "plugin"
  | 6 => "unsupported_format"
  | 7 => "internal"
  | _ => "unknown"

/-- Modelled from the spec: description lookup for a classification code; an
out-of-range code yields the sentinel "Unknown error code". The tests pin the
descriptions of codes 0 and 7; the remaining texts follow the taxonomy. -/
def error_code_description : Nat → String
  | 0 => "Input validation error"
  | 1 => "Document parsing error"
  | 2 => "OCR processing error"
  | 3 => "Missing dependency error"
  | 4 => "File system or IO error"
  | 5 => "Plugin error"
  | 6 => "Unsupported format error"
  | 7 => "Internal library error"
  | _ => "Unknown error code"

/-! The message classifier (spec section 4.1, `kreuzberg_classify_error`). -/

/-- ASCII lowercasing on a single byte. -/
def lowerByte (n : Nat) : Nat := if 65 ≤ n ∧ n ≤ 90 then n + 32 else n

/-- Case normalisation of a message to a byte sequence. -/
def normalize (s : String) : List Nat := s.toList.map (fun c => lowerByte c.toNat)

/-- Substring test on byte sequences. -/
def hasSub (needle : List Nat) : List Nat → Bool
  | [] => needle.isEmpty
  | c :: rest => needle.isPrefixOf (c :: rest) || hasSub needle rest

/-- Whether a normalised message contains any of the given phrases. -/
def matchesAny (msg : List Nat) (phrases : List String) : Bool :=
  phrases.any (fun p => hasSub (normalize p) msg)

/-- Phrases signalling a validation failure. -/
def validationPhrases : List String := ["validation", "invalid"]

/-- Phrases signalling a parse failure. -/
def parsingPhrases : List String := ["parse", "parsing", "syntax"]

/-- Phrases signalling an access or IO failure. -/
def ioPhrases : List String := ["io", "file", "permission denied"]

/-- Phrases signalling an unsupported-type failure. -/
def unsupportedPhrases : List String := ["unsupported", "not supported"]

/-- Modelled from the spec: `classify` inspects the message for
case-insensitive substrings in a fixed priority order (validation before
parse before IO before unsupported-type, so that the IO phrase "io" does not
capture "validation") and returns the first matching classification,
defaulting to the generic internal classification when nothing matches,
including for empty or absent input. -/
def classify_error : Option String → Nat
  | none => internalCode
  | some msg =>
    let m := normalize msg
    if matchesAny m validationPhrases then validationCode
    else if matchesAny m parsingPhrases then parsingCode
    else if matchesAny m ioPhrases then ioCode
    else if matchesAny m unsupportedPhrases then unsupportedFormatCode
    else internalCode

/-! Claim theorems for the classification enumeration and the classifier. -/

/-- C3: the error classification enumeration is fixed and densely packed
0..7 with queryable count 8, in the taxonomy order validation=0, parsing=1,
ocr=2, missing_dependency=3, io=4, plugin=5, unsupported_format=6,
internal=7; each in-range code's name and description lookup returns that
code's machine name and description, and every out-of-range code returns
the sentinel "unknown" / "Unknown error code". -/
theorem error_code_enumeration (n : Nat) (h : error_code_count ≤ n) :
    error_code_count = 8 ∧
    error_code_name validationCode = "validation" ∧
    error_code_name parsingCode = "parsing" ∧
    error_code_name ocrCode = "ocr" ∧
    error_code_name missingDependencyCode = "missing_dependency" ∧
    error_code_name ioCode = "io" ∧
    error_code_name pluginCode = "plugin" ∧
    error_code_name unsupportedFormatCode = "unsupported_format" ∧
    error_code_name internalCode = "internal" ∧
    error_code_description validationCode = "Input validation error" ∧
    error_code_description internalCode = "Internal library error" ∧
    error_code_name n = "unknown" ∧
    error_code_description n = "Unknown error code" := by
  obtain ⟨m, rfl⟩ : ∃ m, n = m + 8 := ⟨n - 8, by simp [error_code_count] at h; omega⟩
  refine ⟨rfl, rfl, rfl, rfl, rfl, rfl, rfl, rfl, rfl, rfl, rfl, rfl, rfl⟩

/-- Witness for C3 at the out-of-range code 99. -/
theorem error_code_enumeration_witness :
    error_code_count ≤ 99 ∧
    (error_code_count = 8 ∧
     error_code_name validationCode = "validation" ∧
     error_code_name parsingCode = "parsing" ∧
     error_code_name ocrCode = "ocr" ∧
     error_code_name missingDependencyCode = "missing_dependency" ∧
     error_code_name ioCode = "io" ∧
     error_code_name pluginCode = "plugin" ∧
     error_code_name unsupportedFormatCode = "unsupported_format" ∧
     error_code_name internalCode = "internal" ∧
     error_code_description validationCode = "Input validation error" ∧
     error_code_description internalCode = "Internal library error" ∧
     error_code_name 99 = "unknown" ∧
     error_code_description 99 = "Unknown error code") :=
  ⟨by decide, error_code_enumeration 99 (by decide)⟩

/-- C4: the classifier returns io for "Failed to open file: permission
denied", validation for "validation failed: invalid input", parsing for
"parse error: unexpected token", unsupported_format for "unsupported type:
x-custom"; and for absent input, empty input, and any message matching none
of the phrase lists it returns the generic internal classification. -/
theorem classify_error_coverage (msg : String)
    (h1 : matchesAny (normalize msg) validationPhrases = false)
    (h2 : matchesAny (normalize msg) parsingPhrases = false)
    (h3 : matchesAny (normalize msg) ioPhrases = false)
    (h4 : matchesAny (normalize msg) unsupportedPhrases = false) :
    classify_error (some "Failed to open file: permission denied") = ioCode ∧
    classify_error (some "validation failed: invalid input") = validationCode ∧
    classify_error (some "parse error: unexpected token") = parsingCode ∧
    classify_error (some "unsupported type: x-custom") = unsupportedFormatCode ∧
    classify_error none = internalCode ∧
    classify_error (some "") = internalCode ∧
    classify_error (some msg) = internalCode := by
  refine ⟨by decide, by decide, by decide, by decide, rfl, by decide, ?_⟩
  simp [classify_error, h1, h2, h3, h4]

/-- Witness for C4 at the unmatched message "something happened". -/
theorem classify_error_coverage_witness :
    matchesAny (normalize "something happened") validationPhrases = false ∧
    classify_error (some "something happened") = internalCode :=
  ⟨by decide,
   (classify_error_coverage "something happened"
     (by decide) (by decide) (by decide) (by decide)).2.2.2.2.2.2⟩

/-! Thread-local error context (spec sections 3, 4.1, 8). -/

/-- Identifier of a calling thread. -/
abbrev ThreadId := Nat

/-- Modelled from the spec: the record of the most recent failure on a
thread — message, classification code, and optional structured detail. -/
structure ErrorRecord where
  message : String
  code : Nat
  kindName : Option String
  sourceLocation : Option String
  contextInfo : Option String

/-- Modelled from the spec: the Error Context is per-calling-thread storage;
each thread owns an isolated record slot, never shared across threads. -/
def ErrCtx : Type := ThreadId → Option ErrorRecord

/-- The state of a process in which no thread has recorded a failure. -/
def freshErrCtx : ErrCtx := fun _ => none

/-- Modelled from the spec: `report` overwrites the calling thread's record
and touches no other thread's slot. -/
def reportError (tid : ThreadId) (r : ErrorRecord) (s : ErrCtx) : ErrCtx :=
  fun t => if t = tid then some r else s t

/-- Modelled from the spec: `last_error` reads the calling thread's most
recent failure message, or none when that thread has no recorded failure. -/
def last_error (tid : ThreadId) (s : ErrCtx) : Option String :=
  (s tid).map ErrorRecord.message

/-- Modelled from the spec: `last_error_code` returns a numeric code
distinguishing the "no error" sentinel (0) from any recorded failure; the
spec fixes only that the sentinel differs from every recorded failure's
code, so a recorded classification c is surfaced as the nonzero value
c + 1 (tests/c/test_concurrent.c requires a nonzero read after a failure). -/
def last_error_code (tid : ThreadId) (s : ErrCtx) : Int :=
  match s tid with
  | none => 0
  | some r => Int.ofNat r.code + 1

/-- An extraction result as surfaced across the boundary. -/
structure CExtractionResult where
  success : Bool
  content : String

/-- Modelled from the spec: `kreuzberg_extract_file_sync` — the extraction
engine itself is an external collaborator (a parameter here); a NULL path is
rejected as a validation failure, and any engine failure is reported to the
calling thread's Error Context, with the failing return and the recorded
error agreeing. -/
def extract_file_sync (engine : String → Except ErrorRecord CExtractionResult)
    (path : Option String) (tid : ThreadId) (s : ErrCtx) :
    Option CExtractionResult × ErrCtx :=
  match path with
  | none =>
    (none,
     reportError tid
       ⟨"Invalid argument: path must not be null", validationCode, none, none, none⟩ s)
  | some p =>
    match engine p with
    | Except.ok r => (some r, s)
    | Except.error e => (none, reportError tid e s)

/-- C1: thread isolation of the Error Context — a failure reported on thread
t1 (in particular by any `extract_file_sync` call on t1) changes no error
read on a different thread t2; a fresh thread with no failing call reads the
"no error" state (no message, code 0); and after a failing
`extract_file_sync` with a NULL path on a thread, that same thread reads a
non-empty message and a nonzero code. -/
theorem thread_error_isolation
    (engine : String → Except ErrorRecord CExtractionResult)
    (t1 t2 : ThreadId) (h : t1 ≠ t2)
    (r : ErrorRecord) (path : Option String) (s : ErrCtx) :
    (last_error t2 (reportError t1 r s) = last_error t2 s ∧
     last_error_code t2 (reportError t1 r s) = last_error_code t2 s) ∧
    (last_error t2 (extract_file_sync engine path t1 s).2 = last_error t2 s ∧
     last_error_code t2 (extract_file_sync engine path t1 s).2 =
       last_error_code t2 s) ∧
    (last_error t2 freshErrCtx = none ∧ last_error_code t2 freshErrCtx = 0) ∧
    (∃ m, last_error t1 (extract_file_sync engine none t1 s).2 = some m ∧
       m ≠ "" ∧
       last_error_code t1 (extract_file_sync engine none t1 s).2 ≠ 0) := by
  have hframe : ∀ r' : ErrorRecord, ∀ s' : ErrCtx, reportError t1 r' s' t2 = s' t2 := by
    intro r' s'
    have hne : ¬ (t2 = t1) := fun hc => h hc.symm
    simp [reportError, hne]
  refine ⟨⟨?_, ?_⟩, ⟨?_, ?_⟩, ⟨rfl, rfl⟩, ?_⟩
  · simp [last_error, hframe]
  · simp [last_error_code, hframe]
  · cases path with
    | none => simp [extract_file_sync, last_error, hframe]
    | some p =>
      cases hn : engine p with
      | ok v => simp [extract_file_sync, hn]
      | error e => simp [extract_file_sync, hn, last_error, hframe]
  · cases path with
    | none => simp [extract_file_sync, last_error_code, hframe]
    | some p =>
      cases hn : engine p with
      | ok v => simp [extract_file_sync, hn]
      | error e => simp [extract_file_sync, hn, last_error_code, hframe]
  · refine ⟨"Invalid argument: path must not be null", ?_, by decide, ?_⟩
    · simp [extract_file_sync, last_error, reportError]
    · simp [extract_file_sync, last_error_code, reportError, validationCode]

/-- Witness for C1: threads 0 and 1, a NULL-path failure on thread 0, over
the fresh context and an engine that always succeeds. -/
theorem thread_error_isolation_witness :
    (0 : ThreadId) ≠ 1 ∧
    (∃ m, last_error 0
        (extract_file_sync (fun _ => Except.ok ⟨true, ""⟩) none 0 freshErrCtx).2 =
          some m ∧ m ≠ "" ∧
        last_error_code 0
          (extract_file_sync (fun _ => Except.ok ⟨true, ""⟩) none 0 freshErrCtx).2 ≠ 0) :=
  ⟨by decide,
   (thread_error_isolation (fun _ => Except.ok ⟨true, ""⟩) 0 1 (by decide)
     ⟨"", 0, none, none, none⟩ none freshErrCtx).2.2.2⟩

/-! Result pool (spec section 4.3, `kreuzberg_result_pool_*`). -/

/-- Modelled from the spec: a result pool's observable state — count of
slots in use, slot capacity, cumulative allocations, growth events and an
estimated byte footprint. -/
structure ResultPool where
  currentCount : Nat
  capacity : Nat
  totalAllocations : Nat
  growthEvents : Nat
  estimatedMemoryBytes : Nat

/-- The statistics snapshot surfaced across the boundary. -/
structure CResultPoolStats where
  current_count : Nat
  capacity : Nat
  total_allocations : Nat
  growth_events : Nat
  estimated_memory_bytes : Nat

/-- Modelled from the spec: `create(initial_capacity)` always succeeds,
including for capacity zero; the option models the nullable pointer
returned across the boundary. -/
def result_pool_new (initialCapacity : Nat) : Option ResultPool :=
  some ⟨0, initialCapacity, 0, 0, 0⟩

/-- Modelled from the spec: `stats(pool)` is a point-in-time snapshot. -/
def result_pool_stats (p : ResultPool) : CResultPoolStats :=
  ⟨p.currentCount, p.capacity, p.totalAllocations, p.growthEvents,
   p.estimatedMemoryBytes⟩

/-- Modelled from the spec: `reset(pool)` returns all slots to the free
state and sets `current_count` to zero; it does not change `capacity` and
does not itself increment `growth_events`. -/
def result_pool_reset (p : ResultPool) : ResultPool :=
  ⟨0, p.capacity, p.totalAllocations, p.growthEvents, p.estimatedMemoryBytes⟩

/-- C6: after `reset` the stats report current_count == 0 while capacity is
unchanged from its value before the reset; reset does not increment
growth_events; and a second reset with no intervening allocation produces a
pool observably identical to the one after the first reset. -/
theorem pool_reset_spec (p : ResultPool) :
    (result_pool_stats (result_pool_reset p)).current_count = 0 ∧
    (result_pool_stats (result_pool_reset p)).capacity =
      (result_pool_stats p).capacity ∧
    (result_pool_stats (result_pool_reset p)).growth_events =
      (result_pool_stats p).growth_events ∧
    result_pool_reset (result_pool_reset p) = result_pool_reset p :=
  ⟨rfl, rfl, rfl, rfl⟩

/-- C7: pool creation always succeeds — for every requested initial
capacity, including zero, `create` returns a pool whose initial stats
report the requested capacity and a zero in-use count. -/
theorem pool_create_spec (initialCapacity : Nat) :
    ∃ p, result_pool_new initialCapacity = some p ∧
      (result_pool_stats p).current_count = 0 ∧
      (result_pool_stats p).capacity = initialCapacity :=
  ⟨⟨0, initialCapacity, 0, 0, 0⟩, rfl, rfl, rfl⟩

/-! Plugin registries (spec sections 3, 4.4, `kreuzberg_register_*`).
The four registries (document extractors, OCR backends, post-processors,
validators) share one structure and differ only in their kind-specific
metadata, so the registry model is generic in the metadata type. -/

/-- Modelled from the spec: a registry entry — a name, an opaque
caller-supplied callback handle, and kind-specific metadata. -/
structure PluginEntry (α : Type) where
  name : String
  callback : Nat
  meta : α

/-- A kind's registry: its entries in registration order. -/
abbrev Registry (α : Type) : Type := List (PluginEntry α)

/-- The ordering bucket of a post-processor. -/
inductive Stage where
  | early
  | middle
  | late

/-- Metadata of a document extractor: MIME affinity and priority. -/
structure DocumentExtractorMeta where
  mimeAffinity : String
  priority : Int

/-- Metadata of an OCR backend: an optional supported-language list. -/
structure OcrBackendMeta where
  supportedLanguages : Option (List String)

/-- Metadata of a post-processor: priority and stage. -/
structure PostProcessorMeta where
  priority : Int
  stage : Stage

/-- Metadata of a validator: priority. -/
structure ValidatorMeta where
  priority : Int

/-- The document-extractor registry. -/
abbrev DocumentExtractorRegistry := Registry DocumentExtractorMeta

/-- The OCR-backend registry. -/
abbrev OcrBackendRegistry := Registry OcrBackendMeta

/-- The post-processor registry. -/
abbrev PostProcessorRegistry := Registry PostProcessorMeta

/-- The validator registry. -/
abbrev ValidatorRegistry := Registry ValidatorMeta

/-- Modelled from the spec: storing an entry overwrites in place when the
name already exists for that kind and appends otherwise (registration
order is kept stable). -/
def registerEntry {α : Type} (e : PluginEntry α) : Registry α → Registry α
  | [] => [e]
  | x :: rest => if x.name = e.name then e :: rest else x :: registerEntry e rest

/-- Modelled from the spec: `register` returns failure (not a crash) when
the name or the callback pointer is absent, leaving the registry unchanged;
otherwise it stores the entry and returns success. -/
def registerPlugin {α : Type} (name : Option String) (cb : Option Nat) (m : α)
    (r : Registry α) : Bool × Registry α :=
  match name, cb with
  | some n, some c => (true, registerEntry ⟨n, c, m⟩ r)
  | none, _ => (false, r)
  | _, none => (false, r)

/-- Modelled from the spec: `unregister` removes the named entry when
present and is a successful no-op when absent — absence is not an error. -/
def unregisterPlugin {α : Type} (n : String) (r : Registry α) :
    Bool × Registry α :=
  (true, r.filter (fun e => e.name ≠ n))

/-- The names of a registry's entries, in order. -/
def registryNames {α : Type} (r : Registry α) : List String :=
  r.map PluginEntry.name

/-- The spec invariant that within a kind no two live entries share a name. -/
def namesUnique {α : Type} (r : Registry α) : Prop :=
  (registryNames r).Nodup

theorem registryNames_cons {α : Type} (x : PluginEntry α) (r : Registry α) :
    registryNames (x :: r) = x.name :: registryNames r := rfl

theorem mem_names_registerEntry {α : Type} (e : PluginEntry α) (r : Registry α) :
    e.name ∈ registryNames (registerEntry e r) := by
  induction r with
  | nil => simp [registerEntry, registryNames]
  | cons x rest ih =>
    by_cases hx : x.name = e.name
    · simp [registerEntry, hx, registryNames_cons]
    · simp only [registerEntry, hx, if_false, registryNames_cons, List.mem_cons]
      exact Or.inr ih

theorem names_registerEntry_of_mem {α : Type} (e : PluginEntry α)
    (r : Registry α) (h : e.name ∈ registryNames r) :
    registryNames (registerEntry e r) = registryNames r := by
  induction r with
  | nil => simp [registryNames] at h
  | cons x rest ih =>
    by_cases hx : x.name = e.name
    · simp [registerEntry, hx, registryNames_cons]
    · simp only [registryNames_cons, List.mem_cons] at h
      rcases h with h | h
      · exact absurd h.symm hx
      · simp only [registerEntry, hx, if_false, registryNames_cons, ih h]

theorem names_registerEntry_of_not_mem {α : Type} (e : PluginEntry α)
    (r : Registry α) (h : e.name ∉ registryNames r) :
    registryNames (registerEntry e r) = registryNames r ++ [e.name] := by
  induction r with
  | nil => simp [registerEntry, registryNames]
  | cons x rest ih =>
    simp only [registryNames_cons, List.mem_cons] at h
    push_neg at h
    have hx : ¬ (x.name = e.name) := fun hc => h.1 hc.symm
    simp only [registerEntry, hx, if_false, registryNames_cons, ih h.2,
      List.cons_append]

theorem namesUnique_registerEntry {α : Type} (e : PluginEntry α)
    (r : Registry α) (h : namesUnique r) :
    namesUnique (registerEntry e r) := by
  by_cases hm : e.name ∈ registryNames r
  · unfold namesUnique
    rw [names_registerEntry_of_mem e r hm]
    exact h
  · unfold namesUnique
    rw [names_registerEntry_of_not_mem e r hm]
    simp only [List.nodup_append, List.nodup_cons, List.not_mem_nil,
      not_false_iff, List.nodup_nil, and_true, true_and]
    refine ⟨h, ?_⟩
    intro a ha
    simp only [List.mem_singleton]
    intro hc
    exact hm (hc ▸ ha)

theorem length_registerEntry_of_mem {α : Type} (e : PluginEntry α)
    (r : Registry α) (h : e.name ∈ registryNames r) :
    (registerEntry e r).length = r.length := by
  induction r with
  | nil => simp [registryNames] at h
  | cons x rest ih =>
    by_cases hx : x.name = e.name
    · simp [registerEntry, hx]
    · simp only [registryNames_cons, List.mem_cons] at h
      rcases h with h | h
      · exact absurd h.symm hx
      · simp only [registerEntry, hx, if_false, List.length_cons, ih h]

theorem filter_registerEntry {α : Type} (e : PluginEntry α)
    (r : Registry α) (h : namesUnique r) :
    (registerEntry e r).filter (fun x => x.name = e.name) = [e] := by
  induction r with
  | nil => simp [registerEntry]
  | cons x rest ih =>
    by_cases hx : x.name = e.name
    · simp only [registerEntry, hx, if_true]
      have hrest : ∀ y ∈ rest, ¬ (y.name = e.name) := by
        intro y hy hc
        have hxn : x.name ∉ registryNames rest := by
          have := h
          unfold namesUnique at this
          rw [registryNames_cons] at this
          exact (List.nodup_cons.mp this).1
        exact hxn (by
          rw [hx, ← hc]
          exact List.mem_map_of_mem PluginEntry.name hy)
      rw [List.filter_cons, if_pos (by simp),
        List.filter_eq_nil_iff.mpr (by
          intro y hy
          simp only [decide_eq_true_eq]
          exact hrest y hy)]
    · have htail : namesUnique rest := by
        unfold namesUnique at h ⊢
        rw [registryNames_cons] at h
        exact (List.nodup_cons.mp h).2
      simp only [registerEntry, hx, if_false]
      rw [List.filter_cons]
      simp only [decide_eq_true_eq, hx, if_false]
      exact ih htail

/-- C5: registry overwrite — for every plugin kind (the registry model is
generic over the kind's metadata), registering a name n that is already
present returns success and leaves exactly one live entry named n, carrying
the second registration's callback and metadata; the registry size is
preserved and the name-uniqueness invariant (no duplicates in a listing)
is maintained. -/
theorem registry_overwrite {α : Type} (n : String) (c1 c2 : Nat) (m1 m2 : α)
    (r : Registry α) (h : namesUnique r) :
    (registerPlugin (some n) (some c2) m2
        (registerPlugin (some n) (some c1) m1 r).2).1 = true ∧
    (registerPlugin (some n) (some c2) m2
        (registerPlugin (some n) (some c1) m1 r).2).2.filter
      (fun e => e.name = n) = [⟨n, c2, m2⟩] ∧
    (registerPlugin (some n) (some c2) m2
        (registerPlugin (some n) (some c1) m1 r).2).2.length =
      (registerPlugin (some n) (some c1) m1 r).2.length ∧
    namesUnique (registerPlugin (some n) (some c2) m2
        (registerPlugin (some n) (some c1) m1 r).2).2 := by
  have h1 : namesUnique (registerEntry ⟨n, c1, m1⟩ r) :=
    namesUnique_registerEntry _ r h
  have hmem : n ∈ registryNames (registerEntry ⟨n, c1, m1⟩ r) :=
    mem_names_registerEntry ⟨n, c1, m1⟩ r
  refine ⟨rfl, ?_, ?_, ?_⟩
  · exact filter_registerEntry ⟨n, c2, m2⟩ _ h1
  · exact length_registerEntry_of_mem ⟨n, c2, m2⟩ _ hmem
  · exact namesUnique_registerEntry ⟨n, c2, m2⟩ _ h1

/-- Witness for C5: overwriting the name "dup-name" in a singleton
document-extractor registry. -/
theorem registry_overwrite_witness :
    namesUnique ([⟨"other", 3, ⟨"text/plain", 10⟩⟩] : DocumentExtractorRegistry) ∧
    ((registerPlugin (some "dup-name") (some 2) (⟨"application/x-dup2", 200⟩ : DocumentExtractorMeta)
        (registerPlugin (some "dup-name") (some 1) ⟨"application/x-dup", 100⟩
          [⟨"other", 3, ⟨"text/plain", 10⟩⟩]).2).1 = true ∧
     (registerPlugin (some "dup-name") (some 2) (⟨"application/x-dup2", 200⟩ : DocumentExtractorMeta)
        (registerPlugin (some "dup-name") (some 1) ⟨"application/x-dup", 100⟩
          [⟨"other", 3, ⟨"text/plain", 10⟩⟩]).2).2.filter
       (fun e => e.name = "dup-name") = [⟨"dup-name", 2, ⟨"application/x-dup2", 200⟩⟩] ∧
     (registerPlugin (some "dup-name") (some 2) (⟨"application/x-dup2", 200⟩ : DocumentExtractorMeta)
        (registerPlugin (some "dup-name") (some 1) ⟨"application/x-dup", 100⟩
          [⟨"other", 3, ⟨"text/plain", 10⟩⟩]).2).2.length =
       (registerPlugin (some "dup-name") (some 1) (⟨"application/x-dup", 100⟩ : DocumentExtractorMeta)
          [⟨"other", 3, ⟨"text/plain", 10⟩⟩]).2.length ∧
     namesUnique (registerPlugin (some "dup-name") (some 2)
        (⟨"application/x-dup2", 200⟩ : DocumentExtractorMeta)
        (registerPlugin (some "dup-name") (some 1) ⟨"application/x-dup", 100⟩
          [⟨"other", 3, ⟨"text/plain", 10⟩⟩]).2).2) :=
  ⟨by simp [namesUnique, registryNames],
   registry_overwrite "dup-name" 1 2 (⟨"application/x-dup", 100⟩ : DocumentExtractorMeta)
     (⟨"application/x-dup2", 200⟩ : DocumentExtractorMeta)
     ([⟨"other", 3, ⟨"text/plain", 10⟩⟩] : DocumentExtractorRegistry)
     (by simp [namesUnique, registryNames])⟩

/-- C8: for every plugin kind, `register` with an absent name or an absent
callback pointer returns failure rather than crashing, and leaves the
registry unchanged. -/
theorem register_null_rejected {α : Type} (m : α) (r : Registry α)
    (name : Option String) (cb : Option Nat)
    (h : name = none ∨ cb = none) :
    registerPlugin name cb m r = (false, r) := by
  rcases h with h | h
  · subst h
    cases cb <;> rfl
  · subst h
    cases name <;> rfl

/-- Witness for C8: a NULL name rejected on the validator registry and a
NULL callback rejected on the OCR-backend registry. -/
theorem register_null_rejected_witness :
    ((none : Option String) = none ∨ (some 7 : Option Nat) = none) ∧
    @registerPlugin ValidatorMeta none (some 7) ⟨50⟩ [] = (false, []) ∧
    ((some "null-cb-ocr" : Option String) = none ∨ (none : Option Nat) = none) ∧
    @registerPlugin OcrBackendMeta (some "null-cb-ocr") none ⟨none⟩ [] = (false, []) :=
  ⟨Or.inl rfl,
   register_null_rejected ⟨50⟩ [] none (some 7) (Or.inl rfl),
   Or.inr rfl,
   register_null_rejected ⟨none⟩ [] (some "null-cb-ocr") none (Or.inr rfl)⟩

theorem unregister_absent {α : Type} (n : String) (r : Registry α)
    (h : ∀ e ∈ r, e.name ≠ n) : unregisterPlugin n r = (true, r) := by
  unfold unregisterPlugin
  rw [List.filter_eq_self.mpr]
  intro a ha
  simp only [decide_eq_true_eq]
  exact h a ha

/-- C9: idempotent unregister — for every plugin kind, unregistering a name
not present in the registry returns success and leaves the registry (and
hence its size) unchanged; in particular a second unregister of the same
name after a successful one still returns success and changes nothing. -/
theorem unregister_idempotent {α : Type} (n : String) (r r' : Registry α)
    (h : ∀ e ∈ r, e.name ≠ n) :
    unregisterPlugin n r = (true, r) ∧
    (unregisterPlugin n r).2.length = r.length ∧
    unregisterPlugin n (unregisterPlugin n r').2 =
      (true, (unregisterPlugin n r').2) := by
  refine ⟨unregister_absent n r h, ?_, ?_⟩
  · rw [unregister_absent n r h]
  · refine unregister_absent n _ ?_
    intro e he
    have := List.of_mem_filter he
    simpa using this

/-- Witness for C9: unregistering "nonexistent-extractor" from a singleton
validator registry, and re-unregistering "x" after it was removed. -/
theorem unregister_idempotent_witness :
    (∀ e ∈ ([⟨"a", 1, ⟨50⟩⟩] : ValidatorRegistry), e.name ≠ "nonexistent-extractor") ∧
    (unregisterPlugin "nonexistent-extractor" ([⟨"a", 1, ⟨50⟩⟩] : ValidatorRegistry) =
       (true, [⟨"a", 1, ⟨50⟩⟩]) ∧
     (unregisterPlugin "nonexistent-extractor" ([⟨"a", 1, ⟨50⟩⟩] : ValidatorRegistry)).2.length =
       ([⟨"a", 1, ⟨50⟩⟩] : ValidatorRegistry).length ∧
     unregisterPlugin "nonexistent-extractor"
         (unregisterPlugin "nonexistent-extractor" ([⟨"x", 2, ⟨60⟩⟩] : ValidatorRegistry)).2 =
       (true, (unregisterPlugin "nonexistent-extractor" ([⟨"x", 2, ⟨60⟩⟩] : ValidatorRegistry)).2)) :=
  ⟨by intro e he; simp only [List.mem_singleton] at he; subst he; decide,
   unregister_idempotent "nonexistent-extractor"
     ([⟨"a", 1, ⟨50⟩⟩] : ValidatorRegistry) ([⟨"x", 2, ⟨60⟩⟩] : ValidatorRegistry)
     (by intro e he; simp only [List.mem_singleton] at he; subst he; decide)⟩

/-! String cloning at the boundary (`kreuzberg_clone_string`). Pointer
identity is modelled with an explicit allocation heap: a pointer is an
index into the list of allocations made so far, and a fresh allocation
always receives an index distinct from every live one. -/

/-- A heap of string allocations; the pointer to a string is its index. -/
structure StrHeap where
  cells : List String

/-- Reading the string behind a pointer. -/
def deref (h : StrHeap) (p : Nat) : Option String := h.cells[p]?

/-- Allocating a fresh cell holding `s`; the returned pointer is fresh. -/
def allocate (s : String) (h : StrHeap) : Nat × StrHeap :=
  (h.cells.length, ⟨h.cells ++ [s]⟩)

/-- Modelled from the spec: `kreuzberg_clone_string` returns NULL for a
NULL input and otherwise returns a fresh owned allocation holding a byte
copy of the input string. -/
def clone_string (p : Option Nat) (h : StrHeap) : Option Nat × StrHeap :=
  match p with
  | none => (none, h)
  | some q =>
    match deref h q with
    | none => (none, h)
    | some s => ((allocate s h).1, (allocate s h).2)

/-- C10: cloning NULL returns NULL (with no allocation); cloning a valid
string pointer (including one holding the empty string) returns a non-NULL
pointer distinct from the input whose content is byte-equal to the input's
content with the same length, and leaves the original intact. -/
theorem clone_string_spec (q : Nat) (s : String) (h : StrHeap)
    (hq : deref h q = some s) :
    clone_string none h = (none, h) ∧
    (∃ q2, (clone_string (some q) h).1 = some q2 ∧
       q2 ≠ q ∧
       deref (clone_string (some q) h).2 q2 = some s ∧
       deref (clone_string (some q) h).2 q = some s ∧
       (∀ t, deref (clone_string (some q) h).2 q2 = some t → t.length = s.length)) := by
  have hq' : h.cells[q]? = some s := hq
  have hlt : q < h.cells.length := by
    by_contra hge
    push_neg at hge
    have hnone : h.cells[q]? = none := List.getElem?_eq_none hge
    rw [hnone] at hq'
    exact Option.noConfusion hq'
  refine ⟨rfl, h.cells.length, ?_, ?_, ?_, ?_, ?_⟩
  · simp [clone_string, deref, hq', allocate]
  · omega
  · simp only [clone_string, deref, hq', allocate]
    exact List.getElem?_concat_length h.cells s
  · simp only [clone_string, deref, hq', allocate]
    rw [List.getElem?_append_left hlt]
    exact hq'
  · intro t ht
    simp only [clone_string, deref, hq', allocate] at ht
    rw [List.getElem?_concat_length] at ht
    cases ht
    rfl

/-- Witness for C10: cloning the string "Hello, kreuzberg clone test!"
stored at pointer 0 of a one-cell heap. -/
theorem clone_string_spec_witness :
    deref ⟨["Hello, kreuzberg clone test!"]⟩ 0 = some "Hello, kreuzberg clone test!" ∧
    (clone_string none ⟨["Hello, kreuzberg clone test!"]⟩ =
       (none, ⟨["Hello, kreuzberg clone test!"]⟩) ∧
     (∃ q2, (clone_string (some 0) ⟨["Hello, kreuzberg clone test!"]⟩).1 = some q2 ∧
        q2 ≠ 0 ∧
        deref (clone_string (some 0) ⟨["Hello, kreuzberg clone test!"]⟩).2 q2 =
          some "Hello, kreuzberg clone test!" ∧
        deref (clone_string (some 0) ⟨["Hello, kreuzberg clone test!"]⟩).2 0 =
          some "Hello, kreuzberg clone test!" ∧
        (∀ t, deref (clone_string (some 0) ⟨["Hello, kreuzberg clone test!"]⟩).2 q2 =
            some t → t.length = "Hello, kreuzberg clone test!".length))) :=
  ⟨rfl, clone_string_spec 0 "Hello, kreuzberg clone test!"
    ⟨["Hello, kreuzberg clone test!"]⟩ rfl⟩

/-! String intern table (spec sections 3, 4.2, `kreuzberg_intern_string`).
Identity of a shared allocation is modelled as a numeric handle; content
equality of handles is pointer equality in the C surface. -/

/-- An entry of the intern table: the identity (pointer) of the shared
allocation, its immutable byte content, and its reference count. -/
structure InternEntry where
  id : Nat
  content : String
  rc : Nat

/-- The intern table: live entries, the next fresh identity, and the
request/hit/miss counters of the statistics snapshot. -/
structure InternState where
  entries : List InternEntry
  nextId : Nat
  totalRequests : Nat
  cacheHits : Nat
  cacheMisses : Nat

/-- Scan for a live entry with the given content, bumping its reference
count in place; returns the found identity, if any. -/
def internScan (s : String) : List InternEntry → Option Nat × List InternEntry
  | [] => (none, [])
  | e :: rest =>
    if e.content = s then (some e.id, ⟨e.id, e.content, e.rc + 1⟩ :: rest)
    else
      let p := internScan s rest
      (p.1, e :: p.2)

/-- Modelled from the spec: `intern(text)` returns an existing identity if
the content was interned and not yet released (a cache hit, sharing the
backing allocation) and otherwise creates and stores a new one under a
fresh identity, incrementing total_requests always and the hit or miss
counter accordingly. -/
def intern_string (s : String) (st : InternState) : Nat × InternState :=
  match (internScan s st.entries).1 with
  | some i =>
    (i, ⟨(internScan s st.entries).2, st.nextId, st.totalRequests + 1,
      st.cacheHits + 1, st.cacheMisses⟩)
  | none =>
    (st.nextId, ⟨st.entries ++ [⟨st.nextId, s, 1⟩], st.nextId + 1,
      st.totalRequests + 1, st.cacheHits, st.cacheMisses + 1⟩)

/-- The content behind an identity, as read through the table. -/
def lookupContent (i : Nat) (st : InternState) : Option String :=
  (st.entries.find? (fun e => e.id = i)).map InternEntry.content

/-- Decrement the reference count of the entry with the given identity,
evicting it when the count reaches zero. -/
def releaseScan (i : Nat) : List InternEntry → List InternEntry
  | [] => []
  | e :: rest =>
    if e.id = i then
      if e.rc ≤ 1 then rest else ⟨e.id, e.content, e.rc - 1⟩ :: rest
    else e :: releaseScan i rest

/-- Modelled from the spec: `release` decrements a reference count and
evicts when it reaches zero; releasing an unknown or null handle is a safe
no-op. -/
def free_interned_string (i : Option Nat) (st : InternState) : InternState :=
  match i with
  | none => st
  | some j =>
    ⟨releaseScan j st.entries, st.nextId, st.totalRequests, st.cacheHits,
     st.cacheMisses⟩

/-- The (identity, content) pairs of a list of entries. -/
def internKeys (l : List InternEntry) : List (Nat × String) :=
  l.map (fun e => (e.id, e.content))

/-- The identities of a list of entries. -/
def idsOf (l : List InternEntry) : List Nat := l.map InternEntry.id

/-- The well-formedness invariant of the table: identities are pairwise
distinct, bounded by the fresh counter, and reference counts of live
entries are positive. -/
structure InternWF (st : InternState) : Prop where
  nodup : (idsOf st.entries).Nodup
  bounded : ∀ e ∈ st.entries, e.id < st.nextId
  positive : ∀ e ∈ st.entries, 1 ≤ e.rc

theorem internKeys_cons (x : InternEntry) (l : List InternEntry) :
    internKeys (x :: l) = (x.id, x.content) :: internKeys l := rfl

theorem idsOf_cons (x : InternEntry) (l : List InternEntry) :
    idsOf (x :: l) = x.id :: idsOf l := rfl

theorem idsOf_eq_keys_map (l : List InternEntry) :
    idsOf l = (internKeys l).map Prod.fst := by
  induction l with
  | nil => rfl
  | cons x rest ih =>
    rw [idsOf_cons, internKeys_cons, List.map_cons, ih]

theorem internScan_keys (s : String) (l : List InternEntry) :
    internKeys (internScan s l).2 = internKeys l := by
  induction l with
  | nil => rfl
  | cons e rest ih =>
    by_cases h : e.content = s
    · simp [internScan, h, internKeys]
    · rw [show (internScan s (e :: rest)).2 = e :: (internScan s rest).2 from by
        simp [internScan, h]]
      rw [internKeys_cons, internKeys_cons, ih]

theorem internScan_fst (s : String) (l : List InternEntry) :
    (internScan s l).1 =
      ((internKeys l).find? (fun x => x.2 = s)).map Prod.fst := by
  induction l with
  | nil => rfl
  | cons e rest ih =>
    by_cases h : e.content = s
    · simp [internScan, h, internKeys, List.find?_cons_of_pos]
    · rw [show internKeys (e :: rest) = (e.id, e.content) :: internKeys rest from rfl,
        List.find?_cons_of_neg _ (by simp [h])]
      simp only [internScan, h, if_false]
      exact ih

theorem mem_keys_of_internScan_some {s : String} {l : List InternEntry}
    {i : Nat} (h : (internScan s l).1 = some i) : (i, s) ∈ internKeys l := by
  rw [internScan_fst] at h
  rcases hx : (internKeys l).find? (fun x => x.2 = s) with _ | x
  · rw [hx] at h
    exact Option.noConfusion h
  · rw [hx] at h
    have h1 : x.1 = i := Option.some.inj h
    have h2 : x.2 = s := by
      have := List.find?_some hx
      simpa using this
    have h3 : x ∈ internKeys l := List.mem_of_find?_eq_some hx
    have : x = (i, s) := Prod.ext h1 h2
    exact this ▸ h3

theorem keys_find_none_of_internScan_none {s : String} {l : List InternEntry}
    (h : (internScan s l).1 = none) :
    (internKeys l).find? (fun x => x.2 = s) = none := by
  rw [internScan_fst] at h
  exact Option.map_eq_none'.mp h

theorem find?_append_of_none {α : Type} (p : α → Bool) (l1 l2 : List α)
    (h : l1.find? p = none) : (l1 ++ l2).find? p = l2.find? p := by
  induction l1 with
  | nil => rfl
  | cons a l1 ih =>
    rw [List.find?_cons] at h
    rcases hp : p a with _ | _
    · rw [hp] at h
      simp only [cond_false] at h
      rw [List.cons_append, List.find?_cons, hp]
      simp only [cond_false]
      exact ih h
    · rw [hp] at h
      simp only [cond_true] at h
      exact Option.noConfusion h

theorem find?_id_of_mem {l : List InternEntry} {e : InternEntry}
    (hnd : (idsOf l).Nodup) (hm : e ∈ l) :
    l.find? (fun x => x.id = e.id) = some e := by
  induction l with
  | nil => exact absurd hm (List.not_mem_nil e)
  | cons x rest ih =>
    have hnd2 : (idsOf rest).Nodup ∧ x.id ∉ idsOf rest := by
      have := hnd
      rw [show idsOf (x :: rest) = x.id :: idsOf rest from rfl,
        List.nodup_cons] at this
      exact ⟨this.2, this.1⟩
    by_cases hx : x.id = e.id
    · rw [List.find?_cons_of_pos _ (by simp [hx])]
      rcases List.mem_cons.mp hm with h | h
      · rw [h]
      · exfalso
        exact hnd2.2 (hx ▸ List.mem_map_of_mem InternEntry.id h)
    · rw [List.find?_cons_of_neg _ (by simp [hx])]
      rcases List.mem_cons.mp hm with h | h
      · exact absurd (congrArg InternEntry.id h.symm) hx
      · exact ih hnd2.1 h

theorem mem_of_mem_keys {l : List InternEntry} {i : Nat} {s : String}
    (h : (i, s) ∈ internKeys l) : ∃ e ∈ l, e.id = i ∧ e.content = s := by
  obtain ⟨e, hm, he⟩ := List.mem_map.mp h
  exact ⟨e, hm, congrArg Prod.fst he, congrArg Prod.snd he⟩

theorem internScan_hit_mem {s : String} {l : List InternEntry} {i : Nat}
    (h : (internScan s l).1 = some i) :
    ∃ e ∈ l, e.id = i ∧ e.content = s ∧
      (⟨i, s, e.rc + 1⟩ : InternEntry) ∈ (internScan s l).2 := by
  induction l with
  | nil => exact Option.noConfusion h
  | cons x rest ih =>
    by_cases hx : x.content = s
    · have h1 : (internScan s (x :: rest)).1 = some x.id := by
        simp [internScan, hx]
      have h2 : x.id = i := Option.some.inj (h1.symm.trans h)
      refine ⟨x, List.mem_cons_self x rest, h2, hx, ?_⟩
      rw [show (internScan s (x :: rest)).2 =
          ⟨x.id, x.content, x.rc + 1⟩ :: rest from by simp [internScan, hx]]
      rw [← h2, ← hx]
      exact List.mem_cons_self _ _
    · have h1 : (internScan s (x :: rest)).1 = (internScan s rest).1 := by
        simp [internScan, hx]
      obtain ⟨e, hm, hid, hc, hb⟩ := ih (h1.symm.trans h)
      refine ⟨e, List.mem_cons_of_mem x hm, hid, hc, ?_⟩
      rw [show (internScan s (x :: rest)).2 = x :: (internScan s rest).2 from by
        simp [internScan, hx]]
      exact List.mem_cons_of_mem x hb

theorem internScan_rc_pos {s : String} {l : List InternEntry}
    (h : ∀ e ∈ l, 1 ≤ e.rc) : ∀ e ∈ (internScan s l).2, 1 ≤ e.rc := by
  induction l with
  | nil =>
    intro e he
    simp only [internScan] at he
    exact absurd he (List.not_mem_nil e)
  | cons x rest ih =>
    by_cases hx : x.content = s
    · intro e he
      rw [show (internScan s (x :: rest)).2 =
          ⟨x.id, x.content, x.rc + 1⟩ :: rest from by simp [internScan, hx]] at he
      rcases List.mem_cons.mp he with h1 | h1
      · rw [h1]
        show 1 ≤ x.rc + 1
        omega
      · exact h e (List.mem_cons_of_mem x h1)
    · intro e he
      rw [show (internScan s (x :: rest)).2 = x :: (internScan s rest).2 from by
        simp [internScan, hx]] at he
      rcases List.mem_cons.mp he with h1 | h1
      · rw [h1]
        exact h x (List.mem_cons_self x rest)
      · exact ih (fun e' he' => h e' (List.mem_cons_of_mem x he')) e h1

theorem intern_fst_hit {s : String} {st : InternState} {i : Nat}
    (h : (internScan s st.entries).1 = some i) : (intern_string s st).1 = i := by
  simp [intern_string, h]

theorem intern_fst_miss {s : String} {st : InternState}
    (h : (internScan s st.entries).1 = none) :
    (intern_string s st).1 = st.nextId := by
  simp [intern_string, h]

theorem intern_snd_entries_hit {s : String} {st : InternState} {i : Nat}
    (h : (internScan s st.entries).1 = some i) :
    ((intern_string s st).2).entries = (internScan s st.entries).2 := by
  simp [intern_string, h]

theorem intern_snd_nextId_hit {s : String} {st : InternState} {i : Nat}
    (h : (internScan s st.entries).1 = some i) :
    ((intern_string s st).2).nextId = st.nextId := by
  simp [intern_string, h]

theorem intern_snd_entries_miss {s : String} {st : InternState}
    (h : (internScan s st.entries).1 = none) :
    ((intern_string s st).2).entries = st.entries ++ [⟨st.nextId, s, 1⟩] := by
  simp [intern_string, h]

theorem intern_snd_nextId_miss {s : String} {st : InternState}
    (h : (internScan s st.entries).1 = none) :
    ((intern_string s st).2).nextId = st.nextId + 1 := by
  simp [intern_string, h]

theorem keys_append_single (l : List InternEntry) (e : InternEntry) :
    internKeys (l ++ [e]) = internKeys l ++ [(e.id, e.content)] := by
  simp [internKeys]

theorem intern_WF {s : String} {st : InternState} (h : InternWF st) :
    InternWF (intern_string s st).2 := by
  rcases hscan : (internScan s st.entries).1 with _ | i
  · refine ⟨?_, ?_, ?_⟩
    · rw [intern_snd_entries_miss hscan, idsOf_eq_keys_map, keys_append_single,
        List.map_append]
      rw [← idsOf_eq_keys_map]
      simp only [List.map_cons, List.map_nil]
      rw [List.nodup_append]
      refine ⟨h.nodup, List.nodup_singleton _, ?_⟩
      intro a ha
      simp only [List.mem_singleton]
      intro hb
      obtain ⟨e, hm, he⟩ := List.mem_map.mp ha
      have := h.bounded e hm
      omega
    · intro e he
      rw [intern_snd_entries_miss hscan] at he
      rw [intern_snd_nextId_miss hscan]
      rcases List.mem_append.mp he with h1 | h1
      · have := h.bounded e h1
        omega
      · rw [List.mem_singleton] at h1
        rw [h1]
        show st.nextId < st.nextId + 1
        omega
    · intro e he
      rw [intern_snd_entries_miss hscan] at he
      rcases List.mem_append.mp he with h1 | h1
      · exact h.positive e h1
      · rw [List.mem_singleton] at h1
        rw [h1]
  · refine ⟨?_, ?_, ?_⟩
    · rw [intern_snd_entries_hit hscan, idsOf_eq_keys_map, internScan_keys,
        ← idsOf_eq_keys_map]
      exact h.nodup
    · intro e he
      rw [intern_snd_entries_hit hscan] at he
      rw [intern_snd_nextId_hit hscan]
      have hk : (e.id, e.content) ∈ internKeys st.entries := by
        rw [← internScan_keys s st.entries]
        exact List.mem_map_of_mem _ he
      obtain ⟨e', hm, hid, _⟩ := mem_of_mem_keys hk
      rw [← hid]
      exact h.bounded e' hm
    · intro e he
      rw [intern_snd_entries_hit hscan] at he
      exact internScan_rc_pos h.positive e he

theorem internScan_after_intern (s : String) (st : InternState) :
    (internScan s ((intern_string s st).2).entries).1 =
      some (intern_string s st).1 := by
  rcases hscan : (internScan s st.entries).1 with _ | i
  · rw [intern_fst_miss hscan, intern_snd_entries_miss hscan, internScan_fst,
      keys_append_single,
      find?_append_of_none _ _ _ (keys_find_none_of_internScan_none hscan),
      List.find?_cons_of_pos _ (by simp)]
    rfl
  · rw [intern_fst_hit hscan, intern_snd_entries_hit hscan, internScan_fst,
      internScan_keys, ← internScan_fst, hscan]

theorem intern_intern_id (s : String) (st : InternState) :
    (intern_string s (intern_string s st).2).1 = (intern_string s st).1 :=
  intern_fst_hit (internScan_after_intern s st)

theorem lookup_after_intern {s : String} {st : InternState} (h : InternWF st) :
    lookupContent (intern_string s st).1 (intern_string s st).2 = some s := by
  rcases hscan : (internScan s st.entries).1 with _ | i
  · rw [lookupContent, intern_fst_miss hscan, intern_snd_entries_miss hscan]
    have hnone : st.entries.find? (fun e => e.id = st.nextId) = none := by
      rw [List.find?_eq_none]
      intro e he
      simp only [decide_eq_true_eq]
      exact Nat.ne_of_lt (h.bounded e he)
    rw [find?_append_of_none _ _ _ hnone, List.find?_cons_of_pos _ (by simp)]
    rfl
  · rw [lookupContent, intern_fst_hit hscan, intern_snd_entries_hit hscan]
    have hmem : (i, s) ∈ internKeys (internScan s st.entries).2 := by
      rw [internScan_keys]
      exact mem_keys_of_internScan_some hscan
    obtain ⟨e, hm, hid, hc⟩ := mem_of_mem_keys hmem
    have hnd : (idsOf (internScan s st.entries).2).Nodup := by
      rw [idsOf_eq_keys_map, internScan_keys, ← idsOf_eq_keys_map]
      exact h.nodup
    subst hid
    rw [find?_id_of_mem hnd hm, Option.map_some', hc]

theorem releaseScan_ids_sublist (i : Nat) (l : List InternEntry) :
    (idsOf (releaseScan i l)).Sublist (idsOf l) := by
  induction l with
  | nil => exact List.Sublist.refl _
  | cons x rest ih =>
    by_cases hx : x.id = i
    · by_cases hrc : x.rc ≤ 1
      · rw [show releaseScan i (x :: rest) = rest from by
          simp [releaseScan, hx, hrc]]
        rw [idsOf_cons]
        exact List.sublist_cons_self x.id (idsOf rest)
      · rw [show releaseScan i (x :: rest) =
            ⟨x.id, x.content, x.rc - 1⟩ :: rest from by simp [releaseScan, hx, hrc]]
        rw [idsOf_cons, idsOf_cons]
    · rw [show releaseScan i (x :: rest) = x :: releaseScan i rest from by
        simp [releaseScan, hx]]
      rw [idsOf_cons, idsOf_cons]
      exact List.Sublist.cons₂ x.id ih

theorem releaseScan_mem {i : Nat} {s : String} {r : Nat} {l : List InternEntry}
    (hnd : (idsOf l).Nodup) (hm : (⟨i, s, r⟩ : InternEntry) ∈ l) (hr : 2 ≤ r) :
    (⟨i, s, r - 1⟩ : InternEntry) ∈ releaseScan i l := by
  induction l with
  | nil => exact absurd hm (List.not_mem_nil _)
  | cons x rest ih =>
    have hnd2 : x.id ∉ idsOf rest ∧ (idsOf rest).Nodup := by
      rw [idsOf_cons] at hnd
      exact List.nodup_cons.mp hnd
    by_cases hx : x.id = i
    · have hxe : x = ⟨i, s, r⟩ := by
        rcases List.mem_cons.mp hm with h1 | h1
        · exact h1.symm
        · exfalso
          have hmem2 : i ∈ idsOf rest := List.mem_map_of_mem InternEntry.id h1
          exact hnd2.1 (hx ▸ hmem2)
      rw [show releaseScan i (x :: rest) =
          if x.rc ≤ 1 then rest else ⟨x.id, x.content, x.rc - 1⟩ :: rest from by
        simp [releaseScan, hx]]
      rw [hxe]
      rw [if_neg (by show ¬ (r ≤ 1); omega)]
      exact List.mem_cons_self _ _
    · have hm2 : (⟨i, s, r⟩ : InternEntry) ∈ rest := by
        rcases List.mem_cons.mp hm with h1 | h1
        · exact absurd (by rw [← h1]) hx
        · exact h1
      rw [show releaseScan i (x :: rest) = x :: releaseScan i rest from by
        simp [releaseScan, hx]]
      exact List.mem_cons_of_mem x (ih hnd2.2 hm2)

theorem lookup_after_release {st : InternState} {i : Nat} {s : String} {r : Nat}
    (hnd : (idsOf st.entries).Nodup)
    (hm : (⟨i, s, r⟩ : InternEntry) ∈ st.entries) (hr : 2 ≤ r) :
    lookupContent i (free_interned_string (some i) st) = some s := by
  have h1 : (⟨i, s, r - 1⟩ : InternEntry) ∈ releaseScan i st.entries :=
    releaseScan_mem hnd hm hr
  have h2 : (idsOf (releaseScan i st.entries)).Nodup :=
    List.Nodup.sublist (releaseScan_ids_sublist i st.entries) hnd
  have h3 := find?_id_of_mem h2 h1
  rw [lookupContent, free_interned_string]
  rw [show (releaseScan i st.entries).find? (fun e => e.id = i) =
      some ⟨i, s, r - 1⟩ from h3]
  rfl

theorem intern_ne {s s' : String} {st : InternState} (hwf : InternWF st)
    (hne : s ≠ s') :
    (intern_string s' (intern_string s st).2).1 ≠ (intern_string s st).1 := by
  rcases hscan : (internScan s st.entries).1 with _ | i
  · rw [intern_fst_miss hscan]
    rcases hscan2 : (internScan s' ((intern_string s st).2).entries).1 with _ | j
    · rw [intern_fst_miss hscan2, intern_snd_nextId_miss hscan]
      omega
    · rw [intern_fst_hit hscan2]
      have hk := mem_keys_of_internScan_some hscan2
      rw [intern_snd_entries_miss hscan, keys_append_single] at hk
      rcases List.mem_append.mp hk with h1 | h1
      · obtain ⟨e, hm, hid, _⟩ := mem_of_mem_keys h1
        have := hwf.bounded e hm
        omega
      · rw [List.mem_singleton] at h1
        intro hj
        exact hne (congrArg Prod.snd h1).symm
  · rw [intern_fst_hit hscan]
    have hk1 := mem_keys_of_internScan_some hscan
    rcases hscan2 : (internScan s' ((intern_string s st).2).entries).1 with _ | j
    · rw [intern_fst_miss hscan2, intern_snd_nextId_hit hscan]
      obtain ⟨e, hm, hid, _⟩ := mem_of_mem_keys hk1
      have := hwf.bounded e hm
      omega
    · rw [intern_fst_hit hscan2]
      have hk2 := mem_keys_of_internScan_some hscan2
      rw [intern_snd_entries_hit hscan, internScan_keys] at hk2
      intro hji
      subst hji
      have hmapnodup : ((internKeys st.entries).map Prod.fst).Nodup := by
        rw [← idsOf_eq_keys_map]
        exact hwf.nodup
      have heq := List.inj_on_of_nodup_map hmapnodup hk2 hk1 rfl
      exact hne (congrArg Prod.snd heq).symm

/-- C2: interning idempotence — for a well-formed table, interning the same
content twice (both results live) returns the same identity; interning
different content returns a different identity; the identity handed back
dereferences to content byte-equal to the request; and after the double
intern, releasing one reference leaves the other reference still resolving
to the same content. -/
theorem intern_idempotence (s s' : String) (st : InternState)
    (hwf : InternWF st) (hne : s ≠ s') :
    (intern_string s (intern_string s st).2).1 = (intern_string s st).1 ∧
    (intern_string s' (intern_string s st).2).1 ≠ (intern_string s st).1 ∧
    lookupContent (intern_string s st).1 (intern_string s st).2 = some s ∧
    lookupContent (intern_string s st).1
      (free_interned_string (some (intern_string s st).1)
        (intern_string s (intern_string s st).2).2) = some s := by
  have hwf1 : InternWF (intern_string s st).2 := intern_WF hwf
  refine ⟨intern_intern_id s st, intern_ne hwf hne, lookup_after_intern hwf, ?_⟩
  have hscan2 := internScan_after_intern s st
  obtain ⟨e, hm, hid, hc, hb⟩ := internScan_hit_mem hscan2
  have hrc : 1 ≤ e.rc := hwf1.positive e hm
  have hment : (⟨(intern_string s st).1, s, e.rc + 1⟩ : InternEntry) ∈
      ((intern_string s (intern_string s st).2).2).entries := by
    rw [intern_snd_entries_hit hscan2]
    exact hb
  have hnd : (idsOf ((intern_string s (intern_string s st).2).2).entries).Nodup :=
    (intern_WF hwf1).nodup
  have := lookup_after_release hnd hment (by omega)
  simpa using this

/-- Witness for C2: interning "x-test/unique-string-12345" twice and
"x-test/another-unique-67890" once, starting from the empty table. -/
theorem intern_idempotence_witness :
    (InternWF ⟨[], 0, 0, 0, 0⟩ ∧
     "x-test/unique-string-12345" ≠ "x-test/another-unique-67890") ∧
    ((intern_string "x-test/unique-string-12345"
        (intern_string "x-test/unique-string-12345" ⟨[], 0, 0, 0, 0⟩).2).1 =
       (intern_string "x-test/unique-string-12345" ⟨[], 0, 0, 0, 0⟩).1 ∧
     (intern_string "x-test/another-unique-67890"
        (intern_string "x-test/unique-string-12345" ⟨[], 0, 0, 0, 0⟩).2).1 ≠
       (intern_string "x-test/unique-string-12345" ⟨[], 0, 0, 0, 0⟩).1 ∧
     lookupContent (intern_string "x-test/unique-string-12345" ⟨[], 0, 0, 0, 0⟩).1
       (intern_string "x-test/unique-string-12345" ⟨[], 0, 0, 0, 0⟩).2 =
       some "x-test/unique-string-12345" ∧
     lookupContent (intern_string "x-test/unique-string-12345" ⟨[], 0, 0, 0, 0⟩).1
       (free_interned_string
         (some (intern_string "x-test/unique-string-12345" ⟨[], 0, 0, 0, 0⟩).1)
         (intern_string "x-test/unique-string-12345"
           (intern_string "x-test/unique-string-12345" ⟨[], 0, 0, 0, 0⟩).2).2) =
       some "x-test/unique-string-12345") :=
  ⟨⟨⟨List.nodup_nil, fun e he => absurd he (List.not_mem_nil e),
     fun e he => absurd he (List.not_mem_nil e)⟩, by decide⟩,
   intern_idempotence "x-test/unique-string-12345" "x-test/another-unique-67890"
     ⟨[], 0, 0, 0, 0⟩
     ⟨List.nodup_nil, fun e he => absurd he (List.not_mem_nil e),
      fun e he => absurd he (List.not_mem_nil e)⟩
     (by decide)⟩

end Kreuzberg
